import Mathlib

/-!
Verification of the `Brain` component of the `m` repository
(`junior/utils/brain.py`): provider selection (`choose_best_instructor`),
dispatch (`prompt`), and client-registry construction (`init_instructors`).

The embedding is shallow: Python dicts become association lists in
insertion order (Python ≥3.7 dicts preserve insertion order and have
unique keys), the mutable `TokenTracker` becomes an explicit state value,
external dependencies (the tokenizer, the network clients) become function
parameters, and runtime exceptions (`KeyError`, `ValueError` from tuple
unpacking) become `Option`-valued results where `none` models the raised
exception.
-/

namespace Junior

/-- Python `dict` read, `d.get(k)` / `d[k]`: the value stored at the first
(and, for a real dict, the only) entry whose key equals `k`. -/
def dictGet {α : Type} : List (String × α) → String → Option α
  | [], _ => none
  | e :: r, k => if e.1 = k then some e.2 else dictGet r k

/-- Python `k in d`. -/
def dictMem {α : Type} (l : List (String × α)) (k : String) : Bool :=
  (dictGet l k).isSome

/-- Python `d[k] = v`: overwrite in place when the key exists (a dict keeps
the key's original position), append otherwise. -/
def dictSet {α : Type} : List (String × α) → String → α → List (String × α)
  | [], k, v => [(k, v)]
  | e :: r, k, v => if e.1 = k then (k, v) :: r else e :: dictSet r k v

/-- Split a character list at every occurrence of `c`; the backbone of
Python's `str.split` with a one-character separator. -/
def splitOnChar (c : Char) : List Char → List (List Char)
  | [] => [[]]
  | x :: xs =>
    match splitOnChar c xs with
    | [] => [[x]]
    | y :: ys => if x = c then [] :: y :: ys else (x :: y) :: ys

/-- Python `s.split("/")`: the parts between the slashes, in order
("a/b" ↦ ["a", "b"], "abc" ↦ ["abc"], "a/b/c" ↦ ["a", "b", "c"]). -/
def pySplitSlash (s : String) : List String :=
  (splitOnChar '/' s.data).map (fun l => ⟨l⟩)

/-- Python `s.lower()`, character by character. -/
def pyLower (s : String) : String :=
  ⟨s.data.map Char.toLower⟩

/-- One capability record of `self.llm_configs` (the catalogue loaded by
`Setup`); the fields are exactly the keys `brain.py` reads:
`config["context_window_tokens"]`, `config["max_output_tokens"]`,
`config["expert_for"]`, `config["limits"]`, `config["fallback"]`,
`config["local"]` (`local` is a Lean keyword, hence `localFlag`). -/
structure ModelConfig where
  context_window_tokens : Nat
  max_output_tokens : Nat
  expert_for : List String
  limits : Nat
  fallback : Option String
  localFlag : Bool
deriving DecidableEq

/-- A client built by `init_instructors`. `provider` is the attribute the
external `instructor` library sets on the wrapped client (the code reads it
at `instructor.provider` in `Brain.prompt`); it names the backing provider
("openai" for `from_openai`-built clients, including the local Ollama
endpoint, "groq" for `from_groq`, "anthropic" for `from_anthropic`), never
the `provider/model` identifier the registry is keyed by. The remaining
fields record the construction arguments, so distinct constructions are
distinct values. -/
structure ClientHandle where
  provider : String
  apiKey : String
  baseUrl : Option String
  mode : String
deriving DecidableEq

/-- The `TokenTracker` state: per-key cumulative token counters.
`junior/utils/token_tracker.py` is not part of the sources; the spec
describes it as "per-model cumulative token count" counters. -/
structure TokenTracker where
  usage : List (String × Nat)
deriving DecidableEq

/-- Modelled from the spec: `junior/utils/token_tracker.py` is not under
the sources; the spec says the usage tracker's counters are "used to detect
when a model's quota/limit has been exceeded" and the selector skips a model
when "the UsageCounter for that model already exceeds the model's configured
limit". -/
def TokenTracker.model_exceeds_limits (t : TokenTracker) (name : String)
    (limits : Nat) : Bool :=
  decide (limits < ((dictGet t.usage name).getD 0))

/-- Modelled from the spec: `junior/utils/token_tracker.py` is not under
the sources; the spec describes "mutable process-wide counters recording
cumulative token usage per model", so an update adds the new tokens to the
counter stored at the given key. -/
def TokenTracker.update_model_usage (t : TokenTracker) (key : String)
    (tokens : Nat) : TokenTracker :=
  ⟨dictSet t.usage key (((dictGet t.usage key).getD 0) + tokens)⟩

/-- The `Brain` state read by `choose_best_instructor` and `prompt`:
the capability catalogue `self.llm_configs`, the client registry
`self.instructors`, the usage tracker `self.token_tracker`, and the external
tokenizer behind `self.count_tokens` (tiktoken), modelled as a pure
function. -/
structure Brain where
  llm_configs : List (String × ModelConfig)
  instructors : List (String × ClientHandle)
  token_tracker : TokenTracker
  count_tokens : String → Nat

/-- `config["context_window_tokens"] - token_count` (line 109); the Python
value is an unbounded integer, so the difference lives in `Int`. -/
def scoreOf (config : ModelConfig) (token_count : Nat) : Int :=
  (config.context_window_tokens : Int) - (token_count : Int)

/-- `score > best_match_score` where `best_match_score` starts at
`float("-inf")` (modelled as `none`): every real score beats `-inf`. -/
def gtBest (score : Int) : Option Int → Bool
  | none => true
  | some b => decide (b < score)

/-- The loop state of `choose_best_instructor`: the loop variable `name`
(which Python keeps alive after the loop; `none` when the loop never bound
it), `best_match_score`, and `best_instructor`. -/
structure SelState where
  nameVar : Option String
  best_match_score : Option Int
  best_instructor : Option ClientHandle
deriving DecidableEq

/-- Lines 105-112 of `brain.py`, run after the fallback substitution with
the (possibly substituted) `name`/`config` pair: the category check, the
token-fit check, and the score update; `none` models the `KeyError` of
`self.instructors[name]` (unreachable from the call sites, which guard
membership). -/
def Brain.applyEntry (b : Brain) (token_count : Nat) (category : String)
    (st : SelState) (name : String) (config : ModelConfig) :
    Option SelState :=
  let st := { st with nameVar := some name }
  if category ∈ config.expert_for ∧
      token_count + config.max_output_tokens ≤ config.context_window_tokens then
    if gtBest (scoreOf config token_count) st.best_match_score then
      match dictGet b.instructors name with
      | some h => some { st with
          best_match_score := some (scoreOf config token_count),
          best_instructor := some h }
      | none => none
    else some st
  else some st

/-- One iteration of the `for name, config in self.llm_configs.items()`
loop (lines 95-112): the registry-membership guard, the quota check with
fallback substitution (`fallback and fallback in self.instructors`: a falsy
`None` or `""` fallback skips the model), then `Brain.applyEntry`; `none`
models the `KeyError` of `self.llm_configs[fallback]`. -/
def Brain.selStep (b : Brain) (token_count : Nat) (category : String)
    (st : SelState) (e : String × ModelConfig) : Option SelState :=
  if dictMem b.instructors e.1 then
    if b.token_tracker.model_exceeds_limits e.1 e.2.limits then
      match e.2.fallback with
      | some fb =>
        if fb ≠ "" ∧ dictMem b.instructors fb then
          match dictGet b.llm_configs fb with
          | some fcfg => b.applyEntry token_count category st fb fcfg
          | none => none
        else some { st with nameVar := some e.1 }
      | none => some { st with nameVar := some e.1 }
    else b.applyEntry token_count category st e.1 e.2
  else some { st with nameVar := some e.1 }

/-- The whole loop of `choose_best_instructor`, iteration order that of the
configuration list; `none` propagates a raised exception. -/
def Brain.selLoop (b : Brain) (token_count : Nat) (category : String) :
    List (String × ModelConfig) → SelState → Option SelState
  | [], st => some st
  | e :: rest, st =>
    match b.selStep token_count category st e with
    | some st1 => b.selLoop token_count category rest st1
    | none => none

/-- `Brain.choose_best_instructor` (lines 81-119): run the loop from
`best_instructor = None`, `best_match_score = -inf`, then echo either
`"Selected instructor: {name}"` — with the *loop variable* `name`, whatever
it last held — or `"No suitable instructor found."`. The result pairs the
returned client (or `None`) with the log lines; the outer `none` models an
uncaught exception (including the `NameError` were `name` read while
unbound). -/
def Brain.choose_best_instructor (b : Brain) (prompt : String)
    (category : String) : Option (Option ClientHandle × List String) :=
  let token_count := b.count_tokens prompt
  match b.selLoop token_count category b.llm_configs ⟨none, none, none⟩ with
  | some st =>
    match st.best_instructor with
    | some h =>
      match st.nameVar with
      | some n => some (some h, ["Selected instructor: " ++ n])
      | none => none
    | none => some (none, ["No suitable instructor found."])
  | none => none

/-- Lines 140-153 of `brain.py`, the part of `prompt` that runs once a
client (or no client) has been determined; `logs` are the lines echoed
before this point. `invoke` models the external, synchronous client call
`instructor(prompt)`; `parse` models `output_schema.parse_obj`, returning
the raised validation error's text on failure (the `except` clause catches
it, echoes, and returns `None`). Usage is recorded at `instructor.provider`
before the coercion attempt and the updated tracker is returned either
way. -/
def Brain.dispatch {Resp Out : Type} (b : Brain)
    (invoke : ClientHandle → String → Resp)
    (parse : Resp → Except String Out) (p : String) (logs : List String) :
    Option ClientHandle → Option Out × TokenTracker × List String
  | none => (none, b.token_tracker, logs ++ ["No suitable LLM found."])
  | some c =>
    let tokens_used := b.count_tokens p
    let response := invoke c p
    let tracker := b.token_tracker.update_model_usage c.provider tokens_used
    match parse response with
    | Except.ok v => (some v, tracker, logs)
    | Except.error e => (none, tracker, logs ++ ["Error validating response: " ++ e])

/-- `Brain.prompt` (lines 122-153): when `llm` is truthy (given and
non-empty) and `llm.lower()` is a registry key, use that client directly
(echoing `"Using specified LLM: {llm}"`); otherwise run
`choose_best_instructor`; then dispatch. The outer `none` models an
exception escaping `choose_best_instructor`. -/
def Brain.prompt {Resp Out : Type} (b : Brain)
    (invoke : ClientHandle → String → Resp)
    (parse : Resp → Except String Out) (p : String) (llm : Option String)
    (category : String) : Option (Option Out × TokenTracker × List String) :=
  match llm with
  | some l =>
    if l ≠ "" then
      match dictGet b.instructors (pyLower l) with
      | some c =>
        some (b.dispatch invoke parse p ["Using specified LLM: " ++ l] (some c))
      | none =>
        (b.choose_best_instructor p category).map
          (fun r => b.dispatch invoke parse p r.2 r.1)
    else
      (b.choose_best_instructor p category).map
        (fun r => b.dispatch invoke parse p r.2 r.1)
  | none =>
    (b.choose_best_instructor p category).map
      (fun r => b.dispatch invoke parse p r.2 r.1)

/-- The two settings sections `init_instructors` reads:
`settings["LLM"]["remote"]` (identifier ↦ API key, in insertion order) and
the keys of `settings["LLM"]["local"]` (only the keys are used). -/
structure Settings where
  remote : List (String × String)
  localModels : List String
deriving DecidableEq

/-- The client built for one remote entry (lines 36-43), keyed on
`provider.lower()`: OpenAI with the configured key, Ollama through the
OpenAI-compatible local endpoint in JSON mode, Groq with the configured
key, Anthropic in `ANTHROPIC_JSON` mode (the code passes no API key to the
`Anthropic()` constructor, so the configured key is unused there); any
other provider string matches no branch and registers nothing. The
`provider` field is the attribute the `instructor` wrappers set on the
result. -/
def remoteHandle (provider : String) (api_key : String) : Option ClientHandle :=
  if pyLower provider = "openai" then
    some ⟨"openai", api_key, none, "default"⟩
  else if pyLower provider = "ollama" then
    some ⟨"openai", "ollama", some "http://localhost:11434/v1", "json"⟩
  else if pyLower provider = "groq" then
    some ⟨"groq", api_key, none, "default"⟩
  else if pyLower provider = "anthropic" then
    some ⟨"anthropic", "", none, "anthropic_json"⟩
  else none

/-- The client built for a local model (line 49): the OpenAI-compatible
local Ollama endpoint in JSON mode — the same construction as a remote
"ollama" entry. -/
def localHandle : ClientHandle :=
  ⟨"openai", "ollama", some "http://localhost:11434/v1", "json"⟩

/-- The remote loop of `init_instructors` (lines 33-43): for each
`(full_name, api_key)` with a truthy key, `provider, _ = full_name.split("/")`
— which raises `ValueError` (modelled by `none`) unless the split has
exactly two parts — then register the provider's client under `full_name`. -/
def init_remote : List (String × String) → List (String × ClientHandle) →
    Option (List (String × ClientHandle))
  | [], acc => some acc
  | (full_name, api_key) :: rest, acc =>
    if api_key ≠ "" then
      match pySplitSlash full_name with
      | [provider, _] =>
        match remoteHandle provider api_key with
        | some h => init_remote rest (dictSet acc full_name h)
        | none => init_remote rest acc
      | _ => none
    else init_remote rest acc

/-- The local loop of `init_instructors` (lines 46-49): for each key of the
local section that is in `llm_configs` with `config["local"]` true, register
(possibly overwriting) the local handle under that key. -/
def init_local (llm_configs : List (String × ModelConfig)) :
    List String → List (String × ClientHandle) → List (String × ClientHandle)
  | [], acc => acc
  | full_name :: rest, acc =>
    match dictGet llm_configs full_name with
    | some cfg =>
      if cfg.localFlag then
        init_local llm_configs rest (dictSet acc full_name localHandle)
      else init_local llm_configs rest acc
    | none => init_local llm_configs rest acc

/-- `Brain.init_instructors` (lines 25-52): the remote loop over
`settings["LLM"]["remote"]`, then the local loop over the keys of
`settings["LLM"]["local"]`, starting from the empty registry. -/
def init_instructors (llm_configs : List (String × ModelConfig))
    (s : Settings) : Option (List (String × ClientHandle)) :=
  (init_remote s.remote []).map (init_local llm_configs s.localModels)

/-- Decidable well-formedness of one configuration entry, the spec's §3
invariant: "a `fallback`, if present, must reference another configured
ModelConfig identifier". Rules out the `KeyError` of
`self.llm_configs[fallback]`. -/
def fallbackOK (b : Brain) (e : String × ModelConfig) : Bool :=
  match e.2.fallback with
  | some fb => (dictGet b.llm_configs fb).isSome
  | none => true

/-- Spec-side (follows the claim's words, to be compared with the source
embedding): the qualifying, possibly fallback-substituted model of one
configuration entry — `none` when the entry contributes no qualifying
model. A model qualifies when its identifier has an initialized client,
survives the quota/fallback step, lists the category in `expert_for`, and
fits `token_count + max_output_tokens ≤ context_window_tokens`. -/
def Brain.qualEntry (b : Brain) (token_count : Nat) (category : String)
    (e : String × ModelConfig) : Option (String × ModelConfig) :=
  if dictMem b.instructors e.1 then
    (if b.token_tracker.model_exceeds_limits e.1 e.2.limits then
      match e.2.fallback with
      | some fb =>
        if fb ≠ "" ∧ dictMem b.instructors fb then
          (dictGet b.llm_configs fb).map (fun c => (fb, c))
        else none
      | none => none
    else some e).bind
      (fun q =>
        if category ∈ q.2.expert_for ∧
            token_count + q.2.max_output_tokens ≤ q.2.context_window_tokens then
          some q
        else none)
  else none

/-- Spec-side (follows the claim's words): a qualifying model `q` displaces
the current champion `acc` exactly when its score is strictly greater, so
on ties the earlier model stands. -/
def champion (token_count : Nat) (acc : Option (String × ModelConfig))
    (q : String × ModelConfig) : Option (String × ModelConfig) :=
  match acc with
  | none => some q
  | some a =>
    if scoreOf a.2 token_count < scoreOf q.2 token_count then some q else acc

/-- Spec-side: fold one configuration entry into the champion. -/
def Brain.specStep (b : Brain) (token_count : Nat) (category : String)
    (acc : Option (String × ModelConfig)) (e : String × ModelConfig) :
    Option (String × ModelConfig) :=
  match b.qualEntry token_count category e with
  | none => acc
  | some q => champion token_count acc q

/-- Spec-side (follows the claim's words): fold the qualifying models in
configuration iteration order, keeping the first one whose score
`context_window_tokens - token_count` is the maximum seen. -/
def Brain.specSel (b : Brain) (token_count : Nat) (category : String) :
    List (String × ModelConfig) → Option (String × ModelConfig) →
    Option (String × ModelConfig)
  | [], acc => acc
  | e :: rest, acc =>
    b.specSel token_count category rest (b.specStep token_count category acc e)

theorem dictGet_dictSet_self {α : Type} (l : List (String × α)) (k : String)
    (v : α) : dictGet (dictSet l k v) k = some v := by
  induction l with
  | nil => simp [dictGet, dictSet]
  | cons e r ih =>
    by_cases h : e.1 = k
    · simp [dictSet, h, dictGet]
    · simp [dictSet, h, dictGet, ih]

theorem dictGet_dictSet_other {α : Type} (l : List (String × α))
    (k k1 : String) (v : α) (h : k ≠ k1) :
    dictGet (dictSet l k v) k1 = dictGet l k1 := by
  induction l with
  | nil => simp [dictGet, dictSet, h]
  | cons e r ih =>
    by_cases he : e.1 = k
    · simp [dictSet, he, dictGet, h]
    · simp [dictSet, he, dictGet, ih]

theorem dictGet_mem {α : Type} (l : List (String × α)) (k : String) (v : α)
    (h : dictGet l k = some v) : (k, v) ∈ l := by
  induction l with
  | nil => simp [dictGet] at h
  | cons e r ih =>
    by_cases he : e.1 = k
    · rw [dictGet, if_pos he] at h
      obtain ⟨e1, e2⟩ := e
      injection h with h2
      subst h2
      subst he
      exact List.mem_cons_self _ _
    · rw [dictGet, if_neg he] at h
      exact List.mem_cons_of_mem _ (ih h)

theorem init_local_keeps (cfgs : List (String × ModelConfig)) (id : String) :
    ∀ (rest : List String) (acc : List (String × ClientHandle)),
      dictGet acc id = some localHandle →
      dictGet (init_local cfgs rest acc) id = some localHandle := by
  intro rest
  induction rest with
  | nil => intro acc h; exact h
  | cons x r ih =>
    intro acc h
    cases hc : dictGet cfgs x with
    | none => rw [init_local, hc]; exact ih acc h
    | some cfg =>
      by_cases hl : cfg.localFlag = true
      · simp only [init_local, hc]
        rw [if_pos hl]
        apply ih
        by_cases hx : x = id
        · subst hx; exact dictGet_dictSet_self acc x localHandle
        · rw [dictGet_dictSet_other acc x id localHandle hx]; exact h
      · simp only [init_local, hc]
        rw [if_neg hl]
        exact ih acc h

theorem init_local_sets (cfgs : List (String × ModelConfig)) (id : String)
    (cfg : ModelConfig) (hcfg : dictGet cfgs id = some cfg)
    (hflag : cfg.localFlag = true) :
    ∀ (rest : List String) (acc : List (String × ClientHandle)),
      id ∈ rest →
      dictGet (init_local cfgs rest acc) id = some localHandle := by
  intro rest
  induction rest with
  | nil => intro acc h; cases h
  | cons x r ih =>
    intro acc hmem
    by_cases hx : x = id
    · subst hx
      simp only [init_local, hcfg]
      rw [if_pos hflag]
      exact init_local_keeps cfgs x r _ (dictGet_dictSet_self acc x localHandle)
    · have hr : id ∈ r := by
        rcases List.mem_cons.mp hmem with h | h
        · exact absurd h.symm hx
        · exact h
      cases hc : dictGet cfgs x with
      | none => rw [init_local, hc]; exact ih _ hr
      | some cfg1 =>
        by_cases hl : cfg1.localFlag = true
        · simp only [init_local, hc]
          rw [if_pos hl]
          exact ih _ hr
        · simp only [init_local, hc]
          rw [if_neg hl]
          exact ih _ hr

/-- Claim C9: when the same identifier appears in the remote settings with a
non-empty credential and in the local settings, and the capability catalogue
marks it `local`, then `init_instructors` ends up registering the local
handle for it: the local loop runs after the remote loop and overwrites the
remote handle, so local configuration takes precedence. -/
theorem brain_c9 (llm_configs : List (String × ModelConfig)) (s : Settings)
    (id key : String) (cfg : ModelConfig)
    (reg : List (String × ClientHandle))
    (hrem : (id, key) ∈ s.remote) (hkey : key ≠ "")
    (hloc : id ∈ s.localModels) (hcfg : dictGet llm_configs id = some cfg)
    (hflag : cfg.localFlag = true)
    (hinit : init_instructors llm_configs s = some reg) :
    dictGet reg id = some localHandle := by
  unfold init_instructors at hinit
  cases hr : init_remote s.remote [] with
  | none => rw [hr] at hinit; cases hinit
  | some acc =>
    rw [hr] at hinit
    have hreg : init_local llm_configs s.localModels acc = reg :=
      Option.some.inj hinit
    rw [← hreg]
    exact init_local_sets llm_configs id cfg hcfg hflag s.localModels acc hloc

def c9Cfg : ModelConfig := ⟨100, 10, ["code"], 99, none, true⟩

def c9Settings : Settings := ⟨[("openai/gpt-4o", "sk-1")], ["openai/gpt-4o"]⟩

theorem brain_c9_witness :
    init_instructors [("openai/gpt-4o", c9Cfg)] c9Settings =
      some [("openai/gpt-4o", localHandle)] ∧
    dictGet [("openai/gpt-4o", localHandle)] "openai/gpt-4o" =
      some localHandle :=
  ⟨by decide,
   brain_c9 [("openai/gpt-4o", c9Cfg)] c9Settings "openai/gpt-4o" "sk-1"
     c9Cfg [("openai/gpt-4o", localHandle)] (by decide) (by decide)
     (by decide) (by decide) (by decide) (by decide)⟩

/-- Claim C8: `choose_best_instructor` is deterministic — two calls with the
same prompt, the same category, identical model configurations (in the same
iteration order), identical registry contents, identical usage-tracker state
and the same tokenizer return the same result. -/
theorem brain_c8 (b1 b2 : Brain) (p category : String)
    (h1 : b1.llm_configs = b2.llm_configs)
    (h2 : b1.instructors = b2.instructors)
    (h3 : b1.token_tracker = b2.token_tracker)
    (h4 : b1.count_tokens = b2.count_tokens) :
    b1.choose_best_instructor p category =
      b2.choose_best_instructor p category := by
  obtain ⟨c1, i1, t1, f1⟩ := b1
  obtain ⟨c2, i2, t2, f2⟩ := b2
  have e1 : c1 = c2 := h1
  have e2 : i1 = i2 := h2
  have e3 : t1 = t2 := h3
  have e4 : f1 = f2 := h4
  subst e1; subst e2; subst e3; subst e4
  rfl

def c8Brain : Brain :=
  ⟨[("openai/gpt-4", ⟨8192, 512, ["everything"], 1000, none, false⟩)],
   [("openai/gpt-4", ⟨"openai", "sk", none, "default"⟩)], ⟨[]⟩, fun _ => 7⟩

theorem brain_c8_witness :
    c8Brain.choose_best_instructor "hello" "everything" =
      c8Brain.choose_best_instructor "hello" "everything" :=
  brain_c8 c8Brain c8Brain "hello" "everything" rfl rfl rfl rfl

/-- Provenance of a selectable client: some identifier `n` with
configuration `cfg` maps to the client in the registry, lists the category,
fits the token budget, and either is iterated directly without exceeding
its limit, or is substituted as the usable fallback of some iterated,
over-limit model (the fallback's own limit is not consulted). -/
def pickedFrom (b : Brain) (token_count : Nat) (category : String)
    (c : ClientHandle) : Prop :=
  ∃ n cfg, dictGet b.instructors n = some c ∧
    category ∈ cfg.expert_for ∧
    token_count + cfg.max_output_tokens ≤ cfg.context_window_tokens ∧
    (((n, cfg) ∈ b.llm_configs ∧
        b.token_tracker.model_exceeds_limits n cfg.limits = false) ∨
      (∃ m mcfg, (m, mcfg) ∈ b.llm_configs ∧
        dictMem b.instructors m = true ∧
        b.token_tracker.model_exceeds_limits m mcfg.limits = true ∧
        mcfg.fallback = some n ∧ dictGet b.llm_configs n = some cfg))

theorem applyEntry_picked (b : Brain) (token_count : Nat) (category : String)
    (st st1 : SelState) (n : String) (config : ModelConfig)
    (happ : b.applyEntry token_count category st n config = some st1)
    (hinv : ∀ c, st.best_instructor = some c →
      pickedFrom b token_count category c)
    (hsrc : category ∈ config.expert_for →
      token_count + config.max_output_tokens ≤ config.context_window_tokens →
      ∀ h, dictGet b.instructors n = some h →
        pickedFrom b token_count category h) :
    ∀ c, st1.best_instructor = some c → pickedFrom b token_count category c := by
  intro c hc
  unfold Brain.applyEntry at happ
  by_cases hq : category ∈ config.expert_for ∧
      token_count + config.max_output_tokens ≤ config.context_window_tokens
  · rw [if_pos hq] at happ
    by_cases hgt : gtBest (scoreOf config token_count)
        ({ st with nameVar := some n } : SelState).best_match_score = true
    · rw [if_pos hgt] at happ
      cases hcl : dictGet b.instructors n with
      | none => rw [hcl] at happ; cases happ
      | some h =>
        rw [hcl] at happ
        have hst1 := Option.some.inj happ
        rw [← hst1] at hc
        simp only at hc
        have : h = c := Option.some.inj hc
        subst this
        exact hsrc hq.1 hq.2 h hcl
    · rw [if_neg hgt] at happ
      have hst1 := Option.some.inj happ
      rw [← hst1] at hc
      simp only at hc
      exact hinv c hc
  · rw [if_neg hq] at happ
    have hst1 := Option.some.inj happ
    rw [← hst1] at hc
    simp only at hc
    exact hinv c hc

theorem selStep_picked (b : Brain) (token_count : Nat) (category : String)
    (st st1 : SelState) (e : String × ModelConfig)
    (he : e ∈ b.llm_configs)
    (hstep : b.selStep token_count category st e = some st1)
    (hinv : ∀ c, st.best_instructor = some c →
      pickedFrom b token_count category c) :
    ∀ c, st1.best_instructor = some c → pickedFrom b token_count category c := by
  unfold Brain.selStep at hstep
  by_cases hm : dictMem b.instructors e.1 = true
  · rw [if_pos hm] at hstep
    by_cases hex : b.token_tracker.model_exceeds_limits e.1 e.2.limits = true
    · rw [if_pos hex] at hstep
      cases hfb : e.2.fallback with
      | none =>
        rw [hfb] at hstep
        have hst1 := Option.some.inj hstep
        rw [← hst1]
        intro c hc
        exact hinv c hc
      | some fb =>
        simp only [hfb] at hstep
        by_cases hcond : fb ≠ "" ∧ dictMem b.instructors fb = true
        · rw [if_pos hcond] at hstep
          cases hfcfg : dictGet b.llm_configs fb with
          | none => rw [hfcfg] at hstep; cases hstep
          | some fcfg =>
            rw [hfcfg] at hstep
            refine applyEntry_picked b token_count category st st1 fb fcfg
              hstep hinv ?_
            intro h1 h2 h hcl
            refine ⟨fb, fcfg, hcl, h1, h2, Or.inr ⟨e.1, e.2, ?_, hm, hex, hfb, hfcfg⟩⟩
            exact he
        · rw [if_neg hcond] at hstep
          have hst1 := Option.some.inj hstep
          rw [← hst1]
          intro c hc
          exact hinv c hc
    · rw [if_neg hex] at hstep
      refine applyEntry_picked b token_count category st st1 e.1 e.2
        hstep hinv ?_
      intro h1 h2 h hcl
      refine ⟨e.1, e.2, hcl, h1, h2, Or.inl ⟨?_, ?_⟩⟩
      · exact he
      · exact Bool.not_eq_true _ ▸ (by simpa using hex)
  · rw [if_neg hm] at hstep
    have hst1 := Option.some.inj hstep
    rw [← hst1]
    intro c hc
    exact hinv c hc

theorem selLoop_picked (b : Brain) (token_count : Nat) (category : String) :
    ∀ (l : List (String × ModelConfig)) (st st1 : SelState),
      (∀ e ∈ l, e ∈ b.llm_configs) →
      b.selLoop token_count category l st = some st1 →
      (∀ c, st.best_instructor = some c →
        pickedFrom b token_count category c) →
      ∀ c, st1.best_instructor = some c →
        pickedFrom b token_count category c := by
  intro l
  induction l with
  | nil =>
    intro st st1 _ hloop hinv
    rw [Brain.selLoop] at hloop
    rw [← Option.some.inj hloop]
    exact hinv
  | cons e rest ih =>
    intro st st1 hsub hloop hinv
    rw [Brain.selLoop] at hloop
    cases hstep : b.selStep token_count category st e with
    | none => rw [hstep] at hloop; cases hloop
    | some st2 =>
      rw [hstep] at hloop
      exact ih st2 st1 (fun x hx => hsub x (List.mem_cons_of_mem _ hx)) hloop
        (selStep_picked b token_count category st st2 e
          (hsub e (List.mem_cons_self _ _)) hstep hinv)

theorem choose_picked (b : Brain) (p category : String) (c : ClientHandle)
    (r : Option ClientHandle × List String)
    (h : b.choose_best_instructor p category = some r) (hr : r.1 = some c) :
    pickedFrom b (b.count_tokens p) category c := by
  simp only [Brain.choose_best_instructor] at h
  cases hsel : b.selLoop (b.count_tokens p) category b.llm_configs
      ⟨none, none, none⟩ with
  | none => simp only [hsel] at h; cases h
  | some st =>
    simp only [hsel] at h
    have hpick := selLoop_picked b (b.count_tokens p) category b.llm_configs
      ⟨none, none, none⟩ st (fun e he => he) hsel
      (by intro c1 hc1; simp at hc1)
    cases hbest : st.best_instructor with
    | none =>
      simp only [hbest] at h
      have := Option.some.inj h
      rw [← this] at hr
      simp at hr
    | some hcl =>
      simp only [hbest] at h
      cases hnv : st.nameVar with
      | none => simp only [hnv] at h; cases h
      | some nm =>
        simp only [hnv] at h
        have := Option.some.inj h
        rw [← this] at hr
        simp only at hr
        have hec : hcl = c := Option.some.inj hr
        subst hec
        exact hpick hcl hbest

/-- Claim C2: `choose_best_instructor` never returns the client of a model
whose configuration fails the token fit: whenever it returns a client, that
client is registered to an identifier whose (possibly fallback-substituted)
configuration satisfies
`token_count(prompt) + max_output_tokens ≤ context_window_tokens`. -/
theorem brain_c2 (b : Brain) (p category : String) (c : ClientHandle)
    (logs : List String)
    (h : b.choose_best_instructor p category = some (some c, logs)) :
    ∃ n cfg, (n, cfg) ∈ b.llm_configs ∧ dictGet b.instructors n = some c ∧
      b.count_tokens p + cfg.max_output_tokens ≤ cfg.context_window_tokens := by
  obtain ⟨n, cfg, hcl, _, hfit, hsrc⟩ :=
    choose_picked b p category c (some c, logs) h rfl
  refine ⟨n, cfg, ?_, hcl, hfit⟩
  rcases hsrc with ⟨hmem, _⟩ | ⟨m, mcfg, _, _, _, _, hget⟩
  · exact hmem
  · exact dictGet_mem b.llm_configs n cfg hget

/-- Claim C3 (amended): an over-limit model with no usable fallback is never
selected through its own configuration entry — every returned client belongs
to a model that either does not exceed its limit, or was substituted as the
usable fallback of another over-limit model; since the fallback's own limit
is not checked, an over-limit model can still be returned when it is another
model's fallback. -/
theorem brain_c3 (b : Brain) (p category : String) (c : ClientHandle)
    (logs : List String)
    (h : b.choose_best_instructor p category = some (some c, logs)) :
    pickedFrom b (b.count_tokens p) category c :=
  choose_picked b p category c (some c, logs) h rfl

def c3CfgX : ModelConfig := ⟨10, 1, ["code"], 5, none, false⟩

def c3CfgY : ModelConfig := ⟨10, 1, ["code"], 5, some "x", false⟩

def c3HandleX : ClientHandle := ⟨"groq", "kx", none, "default"⟩

def c3HandleY : ClientHandle := ⟨"openai", "ky", none, "default"⟩

/-- The concrete state refuting claim C3 as stated: both `"y"` and `"x"`
are over limit (usage 10 > limit 5); `"x"` has no fallback, yet it is
substituted for `"y"` (whose fallback it is) and its client is returned. -/
def c3Brain : Brain :=
  ⟨[("y", c3CfgY), ("x", c3CfgX)], [("y", c3HandleY), ("x", c3HandleX)],
   ⟨[("y", 10), ("x", 10)]⟩, fun _ => 3⟩

theorem brain_c3_cex :
    c3Brain.choose_best_instructor "p" "code" =
      some (some c3HandleX, ["Selected instructor: x"]) ∧
    c3Brain.token_tracker.model_exceeds_limits "x" c3CfgX.limits = true ∧
    c3CfgX.fallback = none ∧
    dictGet c3Brain.llm_configs "x" = some c3CfgX ∧
    dictGet c3Brain.instructors "x" = some c3HandleX ∧
    c3HandleX ≠ c3HandleY := by
  refine ⟨?_, ?_, ?_, ?_, ?_, ?_⟩ <;> decide

theorem brain_c3_witness :
    pickedFrom c3Brain (c3Brain.count_tokens "p") "code" c3HandleX :=
  brain_c3 c3Brain "p" "code" c3HandleX ["Selected instructor: x"] (by decide)

def c2Cfg : ModelConfig := ⟨8192, 512, ["everything"], 1000, none, false⟩

def c2Handle : ClientHandle := ⟨"openai", "sk", none, "default"⟩

def c2Brain : Brain :=
  ⟨[("openai/gpt-4", c2Cfg)], [("openai/gpt-4", c2Handle)], ⟨[]⟩, fun _ => 7⟩

theorem brain_c2_witness :
    c2Brain.choose_best_instructor "hi" "everything" =
      some (some c2Handle, ["Selected instructor: openai/gpt-4"]) ∧
    ∃ n cfg, (n, cfg) ∈ c2Brain.llm_configs ∧
      dictGet c2Brain.instructors n = some c2Handle ∧
      c2Brain.count_tokens "hi" + cfg.max_output_tokens ≤
        cfg.context_window_tokens :=
  ⟨by decide,
   brain_c2 c2Brain "hi" "everything" c2Handle
     ["Selected instructor: openai/gpt-4"] (by decide)⟩

/-- The simulation invariant between the loop state of the source embedding
and the spec-side champion: no champion means no best score and no best
client; a champion `q` means the stored score is `q`'s score and the stored
client is `q`'s registry entry (and `name` has been bound). -/
def SelRel (b : Brain) (token_count : Nat) (st : SelState) :
    Option (String × ModelConfig) → Prop
  | none => st.best_match_score = none ∧ st.best_instructor = none
  | some q => st.best_match_score = some (scoreOf q.2 token_count) ∧
      st.nameVar.isSome = true ∧
      ∃ h, dictGet b.instructors q.1 = some h ∧ st.best_instructor = some h

theorem applyEntry_update (b : Brain) (token_count : Nat) (category : String)
    (st : SelState) (n : String) (config : ModelConfig) (h : ClientHandle)
    (hq : category ∈ config.expert_for ∧
      token_count + config.max_output_tokens ≤ config.context_window_tokens)
    (hgt : gtBest (scoreOf config token_count) st.best_match_score = true)
    (hh : dictGet b.instructors n = some h) :
    b.applyEntry token_count category st n config =
      some ⟨some n, some (scoreOf config token_count), some h⟩ := by
  simp only [Brain.applyEntry]
  rw [if_pos hq, if_pos hgt, hh]

theorem applyEntry_keep_gt (b : Brain) (token_count : Nat) (category : String)
    (st : SelState) (n : String) (config : ModelConfig)
    (hq : category ∈ config.expert_for ∧
      token_count + config.max_output_tokens ≤ config.context_window_tokens)
    (hgt : gtBest (scoreOf config token_count) st.best_match_score = false) :
    b.applyEntry token_count category st n config =
      some { st with nameVar := some n } := by
  simp only [Brain.applyEntry]
  rw [if_pos hq, hgt, if_neg Bool.false_ne_true]

theorem applyEntry_skip (b : Brain) (token_count : Nat) (category : String)
    (st : SelState) (n : String) (config : ModelConfig)
    (hq : ¬(category ∈ config.expert_for ∧
      token_count + config.max_output_tokens ≤ config.context_window_tokens)) :
    b.applyEntry token_count category st n config =
      some { st with nameVar := some n } := by
  simp only [Brain.applyEntry]
  rw [if_neg hq]

theorem selRel_rename (b : Brain) (token_count : Nat) (st : SelState)
    (acc : Option (String × ModelConfig)) (nm : String)
    (hrel : SelRel b token_count st acc) :
    SelRel b token_count { st with nameVar := some nm } acc := by
  cases acc with
  | none => exact ⟨hrel.1, hrel.2⟩
  | some a =>
    obtain ⟨hs, hname, ha, hha, hba⟩ := hrel
    exact ⟨hs, rfl, ha, hha, hba⟩

theorem applyEntry_rel (b : Brain) (token_count : Nat) (category : String)
    (st : SelState) (n : String) (config : ModelConfig)
    (acc : Option (String × ModelConfig))
    (hn : (dictGet b.instructors n).isSome = true)
    (hrel : SelRel b token_count st acc) :
    ∃ st1, b.applyEntry token_count category st n config = some st1 ∧
      SelRel b token_count st1
        (if category ∈ config.expert_for ∧
            token_count + config.max_output_tokens ≤
              config.context_window_tokens then
          champion token_count acc (n, config)
        else acc) := by
  by_cases hq : category ∈ config.expert_for ∧
      token_count + config.max_output_tokens ≤ config.context_window_tokens
  · rw [if_pos hq]
    obtain ⟨h, hh⟩ := Option.isSome_iff_exists.mp hn
    cases acc with
    | none =>
      obtain ⟨hs, hb⟩ := hrel
      refine ⟨⟨some n, some (scoreOf config token_count), some h⟩, ?_, ?_⟩
      · exact applyEntry_update b token_count category st n config h hq
          (by rw [hs]; rfl) hh
      · simp only [champion]
        exact ⟨rfl, rfl, h, hh, rfl⟩
    | some a =>
      obtain ⟨hs, hname, ha, hha, hba⟩ := hrel
      by_cases hlt : scoreOf a.2 token_count < scoreOf config token_count
      · refine ⟨⟨some n, some (scoreOf config token_count), some h⟩, ?_, ?_⟩
        · refine applyEntry_update b token_count category st n config h hq ?_ hh
          rw [hs]
          simp only [gtBest]
          exact decide_eq_true hlt
        · simp only [champion]
          rw [if_pos hlt]
          exact ⟨rfl, rfl, h, hh, rfl⟩
      · refine ⟨{ st with nameVar := some n }, ?_, ?_⟩
        · refine applyEntry_keep_gt b token_count category st n config hq ?_
          rw [hs]
          simp only [gtBest]
          exact decide_eq_false hlt
        · simp only [champion]
          rw [if_neg hlt]
          exact ⟨hs, rfl, ha, hha, hba⟩
  · rw [if_neg hq]
    exact ⟨{ st with nameVar := some n },
      applyEntry_skip b token_count category st n config hq,
      selRel_rename b token_count st acc n hrel⟩

theorem selStep_rel (b : Brain) (token_count : Nat) (category : String)
    (st : SelState) (e : String × ModelConfig)
    (acc : Option (String × ModelConfig))
    (hfb : fallbackOK b e = true)
    (hrel : SelRel b token_count st acc) :
    ∃ st1, b.selStep token_count category st e = some st1 ∧
      SelRel b token_count st1 (b.specStep token_count category acc e) := by
  obtain ⟨n0, c0⟩ := e
  by_cases hm : dictMem b.instructors n0 = true
  · by_cases hex : b.token_tracker.model_exceeds_limits n0 c0.limits = true
    · cases hfbv : c0.fallback with
      | none =>
        have hstep : b.selStep token_count category st (n0, c0) =
            some { st with nameVar := some n0 } := by
          simp [Brain.selStep, hm, hex, hfbv]
        have hqe : b.qualEntry token_count category (n0, c0) = none := by
          simp [Brain.qualEntry, hm, hex, hfbv]
        refine ⟨{ st with nameVar := some n0 }, hstep, ?_⟩
        simp only [Brain.specStep, hqe]
        exact selRel_rename b token_count st acc n0 hrel
      | some fb =>
        by_cases hcond : fb ≠ "" ∧ dictMem b.instructors fb = true
        · cases hfcfg : dictGet b.llm_configs fb with
          | none =>
            exfalso
            unfold fallbackOK at hfb
            rw [hfbv] at hfb
            simp only [hfcfg] at hfb
            cases hfb
          | some fcfg =>
            obtain ⟨st1, happ, hrel1⟩ := applyEntry_rel b token_count category
              st fb fcfg acc hcond.2 hrel
            have hstep : b.selStep token_count category st (n0, c0) =
                b.applyEntry token_count category st fb fcfg := by
              simp [Brain.selStep, hm, hex, hfbv, hcond.1, hcond.2, hfcfg]
            have hqe : b.qualEntry token_count category (n0, c0) =
                (if category ∈ fcfg.expert_for ∧
                    token_count + fcfg.max_output_tokens ≤
                      fcfg.context_window_tokens then
                  some (fb, fcfg)
                else none) := by
              simp [Brain.qualEntry, hm, hex, hfbv, hcond.1, hcond.2, hfcfg]
            refine ⟨st1, by rw [hstep]; exact happ, ?_⟩
            by_cases hq : category ∈ fcfg.expert_for ∧
                token_count + fcfg.max_output_tokens ≤
                  fcfg.context_window_tokens
            · rw [if_pos hq] at hrel1
              simp only [Brain.specStep, hqe]
              rw [if_pos hq]
              exact hrel1
            · rw [if_neg hq] at hrel1
              simp only [Brain.specStep, hqe]
              rw [if_neg hq]
              exact hrel1
        · have hstep : b.selStep token_count category st (n0, c0) =
              some { st with nameVar := some n0 } := by
            simp only [Brain.selStep, hfbv]
            rw [if_pos hm, if_pos hex, if_neg hcond]
          have hqe : b.qualEntry token_count category (n0, c0) = none := by
            simp only [Brain.qualEntry, hfbv]
            rw [if_pos hm, if_pos hex, if_neg hcond]
            rfl
          refine ⟨{ st with nameVar := some n0 }, hstep, ?_⟩
          simp only [Brain.specStep, hqe]
          exact selRel_rename b token_count st acc n0 hrel
    · obtain ⟨st1, happ, hrel1⟩ := applyEntry_rel b token_count category
        st n0 c0 acc hm hrel
      have hstep : b.selStep token_count category st (n0, c0) =
          b.applyEntry token_count category st n0 c0 := by
        simp [Brain.selStep, hm, hex]
      have hqe : b.qualEntry token_count category (n0, c0) =
          (if category ∈ c0.expert_for ∧
              token_count + c0.max_output_tokens ≤
                c0.context_window_tokens then
            some (n0, c0)
          else none) := by
        simp [Brain.qualEntry, hm, hex]
      refine ⟨st1, by rw [hstep]; exact happ, ?_⟩
      by_cases hq : category ∈ c0.expert_for ∧
          token_count + c0.max_output_tokens ≤ c0.context_window_tokens
      · rw [if_pos hq] at hrel1
        simp only [Brain.specStep, hqe]
        rw [if_pos hq]
        exact hrel1
      · rw [if_neg hq] at hrel1
        simp only [Brain.specStep, hqe]
        rw [if_neg hq]
        exact hrel1
  · have hstep : b.selStep token_count category st (n0, c0) =
        some { st with nameVar := some n0 } := by
      simp [Brain.selStep, hm]
    have hqe : b.qualEntry token_count category (n0, c0) = none := by
      simp [Brain.qualEntry, hm]
    refine ⟨{ st with nameVar := some n0 }, hstep, ?_⟩
    simp only [Brain.specStep, hqe]
    exact selRel_rename b token_count st acc n0 hrel

theorem selLoop_rel (b : Brain) (token_count : Nat) (category : String) :
    ∀ (l : List (String × ModelConfig)) (st : SelState)
      (acc : Option (String × ModelConfig)),
      (∀ e ∈ l, fallbackOK b e = true) →
      SelRel b token_count st acc →
      ∃ st1, b.selLoop token_count category l st = some st1 ∧
        SelRel b token_count st1 (b.specSel token_count category l acc) := by
  intro l
  induction l with
  | nil =>
    intro st acc _ hrel
    exact ⟨st, rfl, hrel⟩
  | cons e rest ih =>
    intro st acc hall hrel
    obtain ⟨st1, hstep, hrel1⟩ :=
      selStep_rel b token_count category st e acc
        (hall e (List.mem_cons_self _ _)) hrel
    obtain ⟨st2, hloop, hrel2⟩ :=
      ih st1 _ (fun x hx => hall x (List.mem_cons_of_mem _ hx)) hrel1
    refine ⟨st2, ?_, ?_⟩
    · rw [Brain.selLoop, hstep]
      exact hloop
    · simp only [Brain.specSel]
      exact hrel2

/-- Claim C1: under the configuration invariant that every fallback
identifier is itself configured, `choose_best_instructor` returns exactly
the client of the spec-side selection — the first qualifying (possibly
fallback-substituted) model, in configuration iteration order, whose score
`context_window_tokens - token_count(prompt)` is maximal (a later model
displaces the champion only with a strictly greater score). -/
theorem brain_c1 (b : Brain) (p category : String)
    (hwf : ∀ e ∈ b.llm_configs, fallbackOK b e = true) :
    (b.choose_best_instructor p category).map (fun r => r.1) =
      some ((b.specSel (b.count_tokens p) category b.llm_configs none).bind
        (fun q => dictGet b.instructors q.1)) := by
  obtain ⟨st1, hloop, hrel⟩ := selLoop_rel b (b.count_tokens p) category
    b.llm_configs ⟨none, none, none⟩ none hwf ⟨rfl, rfl⟩
  simp only [Brain.choose_best_instructor, hloop]
  cases hspec : b.specSel (b.count_tokens p) category b.llm_configs none with
  | none =>
    rw [hspec] at hrel
    obtain ⟨hs, hb⟩ := hrel
    simp [hb]
  | some q =>
    rw [hspec] at hrel
    obtain ⟨hs, hname, h, hh, hb⟩ := hrel
    obtain ⟨nm, hnm⟩ := Option.isSome_iff_exists.mp hname
    simp [hb, hnm, hh]


def c1CfgBig : ModelConfig := ⟨8005, 100, ["code"], 1000, none, false⟩

def c1CfgSmall : ModelConfig := ⟨5005, 100, ["code"], 1000, none, false⟩

def c1HandleBig : ClientHandle := ⟨"openai", "kb", none, "default"⟩

def c1HandleSmall : ClientHandle := ⟨"groq", "ks", none, "default"⟩

/-- Two qualifying models with scores 8000 and 5000 at a 5-token prompt. -/
def c1Brain : Brain :=
  ⟨[("big", c1CfgBig), ("small", c1CfgSmall)],
   [("big", c1HandleBig), ("small", c1HandleSmall)], ⟨[]⟩, fun _ => 5⟩

theorem brain_c1_witness :
    ((c1Brain.choose_best_instructor "p" "code").map (fun r => r.1) =
      some ((c1Brain.specSel (c1Brain.count_tokens "p") "code"
        c1Brain.llm_configs none).bind
          (fun q => dictGet c1Brain.instructors q.1))) ∧
    (c1Brain.choose_best_instructor "p" "code").map (fun r => r.1) =
      some (some c1HandleBig) :=
  ⟨brain_c1 c1Brain "p" "code" (by decide), by decide⟩

/-- Claim C4: when an iterated model is over limit and its fallback has an
initialized client (and, per the §3 invariant, a configuration), the loop
iteration evaluates the fallback in the model's place: it runs exactly the
category check, token-fit check and score update of the fallback's own
configuration, and on a score update it stores the fallback's client. -/
theorem brain_c4 (b : Brain) (token_count : Nat) (category : String)
    (st : SelState) (e : String × ModelConfig) (fb : String)
    (fcfg : ModelConfig)
    (h1 : dictMem b.instructors e.1 = true)
    (h2 : b.token_tracker.model_exceeds_limits e.1 e.2.limits = true)
    (h3 : e.2.fallback = some fb) (h4 : fb ≠ "")
    (h5 : dictMem b.instructors fb = true)
    (h6 : dictGet b.llm_configs fb = some fcfg) :
    b.selStep token_count category st e =
      b.applyEntry token_count category st fb fcfg ∧
    (category ∈ fcfg.expert_for ∧
        token_count + fcfg.max_output_tokens ≤ fcfg.context_window_tokens →
      gtBest (scoreOf fcfg token_count) st.best_match_score = true →
      ∀ h, dictGet b.instructors fb = some h →
        b.selStep token_count category st e =
          some ⟨some fb, some (scoreOf fcfg token_count), some h⟩) := by
  have hsub : b.selStep token_count category st e =
      b.applyEntry token_count category st fb fcfg := by
    simp [Brain.selStep, h1, h2, h3, h4, h5, h6]
  refine ⟨hsub, ?_⟩
  intro hq hgt h hh
  rw [hsub]
  exact applyEntry_update b token_count category st fb fcfg h hq hgt hh

def c4CfgX : ModelConfig := ⟨10, 1, ["code"], 5, none, false⟩

def c4CfgY : ModelConfig := ⟨999, 1, ["math"], 5, some "x", false⟩

def c4HandleX : ClientHandle := ⟨"groq", "kx", none, "default"⟩

def c4HandleY : ClientHandle := ⟨"openai", "ky", none, "default"⟩

/-- Model `"y"` is over limit (usage 10 > 5) and falls back to `"x"`, whose
own configuration (window 10, category "code") differs from `"y"`'s
(window 999, category "math"). -/
def c4Brain : Brain :=
  ⟨[("y", c4CfgY), ("x", c4CfgX)], [("y", c4HandleY), ("x", c4HandleX)],
   ⟨[("y", 10)]⟩, fun _ => 3⟩

theorem brain_c4_witness :
    c4Brain.selStep 3 "code" ⟨none, none, none⟩ ("y", c4CfgY) =
      some ⟨some "x", some (scoreOf c4CfgX 3), some c4HandleX⟩ :=
  (brain_c4 c4Brain 3 "code" ⟨none, none, none⟩ ("y", c4CfgY) "x" c4CfgX
    (by decide) (by decide) (by decide) (by decide) (by decide)
    (by decide)).2 (by decide) (by decide) c4HandleX (by decide)

/-- Claim C5 (amended): when the supplied identifier is non-empty and its
*lowercased* form is a registry key, `prompt` uses the client registered
under the lowercased identifier directly and never consults the selection
algorithm (the result does not depend on the configuration catalogue the
selector iterates). As stated over the identifier's own form the claim
fails: a registry key containing an uppercase character is not found by the
lowercased lookup and `prompt` falls through to selection. -/
theorem brain_c5 {Resp Out : Type} (b : Brain)
    (invoke : ClientHandle → String → Resp)
    (parse : Resp → Except String Out) (p l category : String)
    (c : ClientHandle)
    (hl : l ≠ "") (hc : dictGet b.instructors (pyLower l) = some c) :
    Brain.prompt b invoke parse p (some l) category =
      some (b.dispatch invoke parse p ["Using specified LLM: " ++ l]
        (some c)) ∧
    ∀ cfgs2 : List (String × ModelConfig),
      Brain.prompt { b with llm_configs := cfgs2 } invoke parse p (some l)
          category =
        Brain.prompt b invoke parse p (some l) category := by
  constructor
  · simp only [Brain.prompt, if_pos hl, hc]
  · intro cfgs2
    simp only [Brain.prompt, if_pos hl, hc]
    rfl

def c5Cfg : ModelConfig := ⟨100, 1, ["code"], 99, none, false⟩

def c5HandleA : ClientHandle := ⟨"openai", "ka", none, "default"⟩

def c5HandleB : ClientHandle := ⟨"groq", "kb", none, "default"⟩

/-- Registry with the uppercase key `"A"`: the identifier `"A"` is a
registry key, yet `"a"` is not, so the explicit-model branch is skipped. -/
def c5Brain : Brain :=
  ⟨[("b", c5Cfg)], [("A", c5HandleA), ("b", c5HandleB)], ⟨[]⟩, fun _ => 2⟩

theorem brain_c5_cex :
    Brain.prompt c5Brain (fun c _ => c) Except.ok "p" (some "A") "code" =
      some (some c5HandleB, ⟨[("groq", 2)]⟩, ["Selected instructor: b"]) ∧
    dictGet c5Brain.instructors "A" = some c5HandleA ∧
    c5HandleA ≠ c5HandleB := by
  refine ⟨?_, ?_, ?_⟩ <;> decide

def c5wBrain : Brain := ⟨[], [("a", c5HandleA)], ⟨[]⟩, fun _ => 2⟩

theorem brain_c5_witness :
    Brain.prompt c5wBrain (fun c _ => c) Except.ok "p" (some "A") "code" =
      some (c5wBrain.dispatch (fun c _ => c) Except.ok "p"
        ["Using specified LLM: " ++ "A"] (some c5HandleA)) ∧
    Brain.prompt { c5wBrain with llm_configs := [("z", c5Cfg)] }
        (fun c _ => c) Except.ok "p" (some "A") "code" =
      Brain.prompt c5wBrain (fun c _ => c) Except.ok "p" (some "A") "code" :=
  ⟨(brain_c5 c5wBrain (fun c _ => c) Except.ok "p" "A" "code" c5HandleA
      (by decide) (by decide)).1,
   (brain_c5 c5wBrain (fun c _ => c) Except.ok "p" "A" "code" c5HandleA
      (by decide) (by decide)).2 [("z", c5Cfg)]⟩

def c6Cfg : ModelConfig := ⟨100, 1, ["code"], 99, none, false⟩

def c6Handle : ClientHandle := ⟨"groq", "kg", none, "default"⟩

def c6Brain : Brain :=
  ⟨[("groq/llama3", c6Cfg)], [("groq/llama3", c6Handle)], ⟨[]⟩, fun _ => 5⟩

/-- Claim C6 at the failing input: when coercion fails, `prompt` returns
`none` without an exception and the usage update made before the coercion
attempt is kept — but the tokens are recorded under the client's `provider`
attribute (`"groq"`), and the counter of the model identifier the selector
reads (`"groq/llama3"`) is never touched. -/
theorem brain_c6 :
    Brain.prompt c6Brain (fun _ _ => "raw")
        (fun _ => (Except.error "boom" : Except String Nat)) "p" none
        "code" =
      some (none, ⟨[("groq", 5)]⟩,
        ["Selected instructor: groq/llama3",
         "Error validating response: boom"]) ∧
    dictGet ([("groq", 5)] : List (String × Nat)) "groq/llama3" = none ∧
    dictGet ([("groq", 5)] : List (String × Nat)) "groq" = some 5 := by
  refine ⟨?_, ?_, ?_⟩ <;> decide

def c7CfgA : ModelConfig := ⟨100, 1, ["code"], 99, none, false⟩

def c7CfgB : ModelConfig := ⟨50, 1, ["code"], 99, none, false⟩

def c7HandleA : ClientHandle := ⟨"openai", "ka", none, "default"⟩

def c7HandleB : ClientHandle := ⟨"groq", "kb", none, "default"⟩

/-- Both models qualify; `"a"` has the higher score (99 vs 49), so `"a"`'s
client is selected, but the loop variable `name` last held `"b"`. -/
def c7Brain : Brain :=
  ⟨[("a", c7CfgA), ("b", c7CfgB)], [("a", c7HandleA), ("b", c7HandleB)],
   ⟨[]⟩, fun _ => 1⟩

/-- Claim C7 at the failing input: the function mutates nothing (it is a
pure function of the state in this embedding), but the identifier it logs
on success is the *last iterated* name — here `"b"` — while the client it
returns is `"a"`'s. -/
theorem brain_c7 :
    c7Brain.choose_best_instructor "p" "code" =
      some (some c7HandleA, ["Selected instructor: b"]) ∧
    dictGet c7Brain.instructors "a" = some c7HandleA ∧
    dictGet c7Brain.instructors "b" = some c7HandleB ∧
    c7HandleA ≠ c7HandleB := by
  refine ⟨?_, ?_, ?_, ?_⟩ <;> decide

/-- Claim C10: when an explicit identifier is supplied but its lowercased
form is not a registry key, `prompt` behaves exactly as if no explicit
identifier had been given: it silently falls through to automatic selection
with the same prompt and category. -/
theorem brain_c10 {Resp Out : Type} (b : Brain)
    (invoke : ClientHandle → String → Resp)
    (parse : Resp → Except String Out) (p l category : String)
    (h : dictGet b.instructors (pyLower l) = none) :
    Brain.prompt b invoke parse p (some l) category =
      Brain.prompt b invoke parse p none category := by
  by_cases hl : l = ""
  · subst hl
    simp [Brain.prompt]
  · simp only [Brain.prompt, h, if_pos hl]

def c10Cfg : ModelConfig := ⟨100, 1, ["code"], 99, none, false⟩

def c10Handle : ClientHandle := ⟨"openai", "km", none, "default"⟩

def c10Brain : Brain :=
  ⟨[("m", c10Cfg)], [("m", c10Handle)], ⟨[]⟩, fun _ => 1⟩

theorem brain_c10_witness :
    Brain.prompt c10Brain (fun _ _ => 0) (fun n => (Except.ok n :
        Except String Nat)) "p" (some "nope") "code" =
      Brain.prompt c10Brain (fun _ _ => 0) (fun n => (Except.ok n :
        Except String Nat)) "p" none "code" :=
  brain_c10 c10Brain (fun _ _ => 0) (fun n => Except.ok n) "p" "nope" "code"
    (by decide)

end Junior
